import Mathlib

/-!
# Verification of `src/tools/make_icon.py`

A shallow embedding of the icon-rendering script.  The script builds a
1024x1024 RGBA canvas, draws three concentric ring outlines, a sampled sine
polyline, resolves a font by probing a list of candidate paths, and draws the
string "40Hz" with a layered low-alpha glow, then writes the raster to disk.

Modelling choices:
* Python floats are modelled by real numbers (`ℝ`); `math.sin` by `Real.sin`,
  `math.pi` by `Real.pi`.
* `range(a, b, s)` is modelled by `pyRange` (positive step) and
  `pyRangeDesc` (step `-1`), faithful to Python's semantics.
* `os.path.exists` is an external capability, modelled as an oracle
  `String → Bool`.
* Font metrics (`draw.textbbox`) are external to the script, modelled as a
  function `Font → TextBBox`.
* A drawing call is recorded as a `DrawOp`; the composited output is the
  ordered list of ops together with canvas size and background.  Pixel-level
  statements use an abstract rasteriser constrained by a frame condition
  (an op changes no pixel outside its covering region) and, where needed, an
  ink condition (an op writes its ink colour at pixels it certainly covers).
-/

namespace MakeIcon

/-- RGBA colour, channels 0..255 as in the script's tuples. -/
def Color : Type := ℕ × ℕ × ℕ × ℕ

/-- The constant `size = 1024` from the script. -/
def size : ℕ := 1024

/-- The constant `bg = (15, 20, 35)` from the script (an RGB triple). -/
def bg : ℕ × ℕ × ℕ := (15, 20, 35)

/-- A resolved font: either a truetype font loaded from a path at a point
size (`ImageFont.truetype(path, 180)`), or the built-in default
(`ImageFont.load_default()`). -/
inductive Font
  | truetype (path : String) (points : ℕ)
  | default
deriving DecidableEq

/-- A text bounding box as returned by `draw.textbbox((0, 0), text, font)`:
left, top, right, bottom, in pixels relative to the drawing origin. -/
structure TextBBox where
  x0 : ℝ
  y0 : ℝ
  x1 : ℝ
  y1 : ℝ

/-- One recorded drawing call on the canvas. -/
inductive DrawOp
  | ellipse (bbox : ℝ × ℝ × ℝ × ℝ) (fill : Option Color) (outline : Color)
      (width : ℕ)
  | line (points : List (ℝ × ℝ)) (fill : Color) (width : ℕ) (joint : String)
  | text (pos : ℝ × ℝ) (s : String) (font : Font) (fill : Color)

/-- Python `range(start, stop, step)` for a positive `step`:
`start, start+step, …` while below `stop`. -/
def pyRange (start stop step : ℕ) : List ℕ :=
  (List.range ((stop - start + step - 1) / step)).map (fun k => start + step * k)

/-- Python `range(start, stop, -1)`: `start, start-1, …, stop+1`. -/
def pyRangeDesc (start stop : ℕ) : List ℕ :=
  (List.range (start - stop)).map (fun k => start - k)

/-! ## Rings -/

/-- The ring table `[(380, 40), (330, 60), (280, 80)]` iterated by the
`for i, alpha in …` loop: pairs of radius and outline alpha. -/
def ringSpecs : List (ℕ × ℕ) := [(380, 40), (330, 60), (280, 80)]

/-- One ring draw: `bbox = [size/2 - i, size/2 - i, size/2 + i, size/2 + i]`,
`draw.ellipse(bbox, outline=(80, 140, 255, alpha), width=10)` (no fill). -/
noncomputable def ringOp (ra : ℕ × ℕ) : DrawOp :=
  DrawOp.ellipse
    ((size : ℝ) / 2 - ra.1, (size : ℝ) / 2 - ra.1,
     (size : ℝ) / 2 + ra.1, (size : ℝ) / 2 + ra.1)
    none (80, 140, 255, ra.2) 10

/-- The three ring draw calls, in loop order (outer to inner). -/
noncomputable def ringOps : List DrawOp := ringSpecs.map ringOp

/-! ## Sine wave -/

/-- The constant `wave_color = (120, 200, 255, 255)`. -/
def wave_color : Color := (120, 200, 255, 255)

/-- The constant `amp = 120`. -/
def amp : ℕ := 120

/-- The sampled x-coordinates: `range(120, size - 120, 4)`. -/
def waveXs : List ℕ := pyRange 120 (size - 120) 4

/-- One sampled wave point:
`t = (x - 120) / (size - 240) * 2 * math.pi * 3`,
`y = size / 2 + math.sin(t) * amp`. -/
noncomputable def wavePoint (x : ℕ) : ℝ × ℝ :=
  ((x : ℝ),
   (size : ℝ) / 2 +
     Real.sin (((x : ℝ) - 120) / ((size : ℝ) - 240) * 2 * Real.pi * 3) * (amp : ℝ))

/-- The list `pts`: the full sampled polyline point list. -/
noncomputable def pts : List (ℝ × ℝ) := waveXs.map wavePoint

/-- The call `draw.line(pts, fill=wave_color, width=16, joint="curve")`. -/
noncomputable def waveOp : DrawOp := DrawOp.line pts wave_color 16 "curve"

/-! ## Font resolution -/

/-- The constant `text = "40Hz"`. -/
def text : String := "40Hz"

/-- The ordered candidate font paths probed by the script. -/
def fontPaths : List String :=
  ["/System/Library/Fonts/Supplemental/Helvetica.ttf",
   "/System/Library/Fonts/Supplemental/Arial.ttf",
   "/System/Library/Fonts/Supplemental/Verdana.ttf"]

/-- The probe loop: `font = None`; for each path, if `os.path.exists(path)`
then `font = ImageFont.truetype(path, 180); break`.  `ex` is the
`os.path.exists` oracle. -/
def fontLoop (ex : String → Bool) : List String → Option Font
  | [] => none
  | p :: rest => if ex p then some (Font.truetype p 180) else fontLoop ex rest

/-- The resolved font: the loop's result, or
`ImageFont.load_default()` when the loop set nothing
(`if font is None: font = ImageFont.load_default()`). -/
def resolvedFont (ex : String → Bool) : Font :=
  (fontLoop ex fontPaths).getD Font.default

/-! ## Text layout -/

/-- The width `text_w = bbox[2] - bbox[0]`. -/
def textW (b : TextBBox) : ℝ := b.x1 - b.x0

/-- The height `text_h = bbox[3] - bbox[1]`. -/
def textH (b : TextBBox) : ℝ := b.y1 - b.y0

/-- The position `text_pos = ((size - text_w) / 2, size * 0.68 - text_h / 2)`. -/
noncomputable def text_pos (b : TextBBox) : ℝ × ℝ :=
  (((size : ℝ) - textW b) / 2, (size : ℝ) * 0.68 - textH b / 2)

/-- Where the measured box lands when the text is drawn at `p`: Pillow's
default `"la"` anchor translates the `(0,0)`-measured box by the draw
position, so `draw.textbbox(p, text, font) = p + draw.textbbox((0,0), text,
font)` componentwise. -/
noncomputable def placedBBox (p : ℝ × ℝ) (b : TextBBox) : TextBBox :=
  ⟨p.1 + b.x0, p.2 + b.y0, p.1 + b.x1, p.2 + b.y1⟩

/-- Horizontal centre of a bounding box. -/
noncomputable def bboxCenterX (b : TextBBox) : ℝ := (b.x0 + b.x1) / 2

/-! ## Glow and final text -/

/-- The glow iteration values: `range(8, 0, -1)` = `[8, 7, …, 1]`. -/
def glowRs : List ℕ := pyRangeDesc 8 0

/-- One glow draw:
`draw.text(text_pos, text, font=font, fill=(120, 200, 255, 18 * r))`. -/
def glowOp (p : ℝ × ℝ) (f : Font) (r : ℕ) : DrawOp :=
  DrawOp.text p text f (120, 200, 255, 18 * r)

/-- The eight glow draw calls, in loop order. -/
def glowOps (p : ℝ × ℝ) (f : Font) : List DrawOp := glowRs.map (glowOp p f)

/-- The final opaque draw:
`draw.text(text_pos, text, font=font, fill=(235, 245, 255, 255))`. -/
def finalTextOp (p : ℝ × ℝ) (f : Font) : DrawOp :=
  DrawOp.text p text f (235, 245, 255, 255)

/-! ## The full render -/

/-- The composited output: canvas dimensions, the background colour the
canvas was created with, and the ordered drawing calls applied to it. -/
structure RenderOutput where
  dims : ℕ × ℕ
  background : ℕ × ℕ × ℕ
  ops : List DrawOp

/-- The whole script as a function of its two external inputs: the
`os.path.exists` oracle `ex` and the font-metric function `m` (what
`draw.textbbox((0,0), text, font)` returns for each font).  Mirrors the
script top to bottom: canvas creation, ring loop, wave polyline, font
resolution, text measurement and position, glow loop, final text. -/
noncomputable def render (ex : String → Bool) (m : Font → TextBBox) :
    RenderOutput :=
  let f := resolvedFont ex
  let p := text_pos (m f)
  { dims := (size, size)
    background := bg
    ops := ringOps ++ [waveOp] ++ glowOps p f ++ [finalTextOp p f] }

/-! ## Abstract rasterisation

The script's library calls rasterise each `DrawOp` onto the RGBA canvas.  We
do not model glyph or ellipse rasterisation exactly; instead `covers` gives a
conservative over-approximation of the pixels a call may touch, and
`certainlyCovers` an under-approximation of pixels an outline call surely
paints.  A rasteriser is any function `DrawOp → Raster → Raster`; the
theorems constrain it by a frame condition (nothing outside `covers`
changes) and an ink condition (`certainlyCovers` pixels receive the call's
ink colour, Pillow's `ImageDraw` on an RGBA image copying the RGBA ink over
the destination rather than alpha-compositing it). -/

/-- A raster assigns an RGBA value to every coordinate. -/
def Raster : Type := ℝ × ℝ → Color

/-- The fresh canvas: `Image.new("RGBA", (size, size), bg)`.  Pillow expands
the RGB triple `bg` to alpha 255 on an RGBA image. -/
def initialRaster : Raster := fun _ => (bg.1, bg.2.1, bg.2.2, 255)

/-- The ink colour of a drawing call (outline colour for ellipses, fill for
lines and text). -/
def ink : DrawOp → Color
  | DrawOp.ellipse _ _ outline _ => outline
  | DrawOp.line _ fill _ _ => fill
  | DrawOp.text _ _ _ fill => fill

/-- Over-approximation of the pixels a call may touch.  An ellipse outline
stays inside its bounding box; the polyline (width 16, curved joints) stays
within distance 30 of some sample point; text rendered at `p` stays inside
the measured box translated to `p` (metrics `m`). -/
def covers (m : Font → TextBBox) : DrawOp → ℝ × ℝ → Prop
  | DrawOp.ellipse b _ _ _, q =>
      b.1 ≤ q.1 ∧ q.1 ≤ b.2.2.1 ∧ b.2.1 ≤ q.2 ∧ q.2 ≤ b.2.2.2
  | DrawOp.line points _ _ _, q =>
      ∃ c ∈ points, |q.1 - c.1| ≤ 30 ∧ |q.2 - c.2| ≤ 30
  | DrawOp.text p _ f _, q =>
      p.1 + (m f).x0 ≤ q.1 ∧ q.1 ≤ p.1 + (m f).x1 ∧
      p.2 + (m f).y0 ≤ q.2 ∧ q.2 ≤ p.2 + (m f).y1

/-- Under-approximation: a non-degenerate ellipse outline certainly paints
the top-centre point of its bounding box.  (We claim nothing for lines or
text.) -/
def certainlyCovers : DrawOp → ℝ × ℝ → Prop
  | DrawOp.ellipse b _ _ _, q =>
      q = ((b.1 + b.2.2.1) / 2, b.2.1) ∧ b.1 ≤ b.2.2.1 ∧ b.2.1 ≤ b.2.2.2
  | DrawOp.line _ _ _ _, _ => False
  | DrawOp.text _ _ _ _, _ => False

/-- Apply a rasteriser to a list of calls in order. -/
def applyOps (e : DrawOp → Raster → Raster) (ops : List DrawOp)
    (r : Raster) : Raster :=
  ops.foldl (fun acc op => e op acc) r

/-- Frame condition: a call changes no pixel outside its covering region. -/
def FrameRespecting (m : Font → TextBBox) (e : DrawOp → Raster → Raster) :
    Prop :=
  ∀ op r q, ¬ covers m op q → e op r q = r q

/-- Ink condition: at a pixel a call certainly paints, the result is the
call's RGBA ink, written verbatim (no alpha blending with the destination:
`ImageDraw.Draw(img)` on an RGBA image copies the ink). -/
def InkWriting (e : DrawOp → Raster → Raster) : Prop :=
  ∀ op r q, certainlyCovers op q → e op r q = ink op

/-- Sanity of measured metrics for the text at 180 pt: with Pillow's `"la"`
anchor the measured top `y0` is non-negative, the box is non-degenerate, and
the bottom is far smaller than `1118` pixels. -/
def MetricsSane (b : TextBBox) : Prop :=
  0 ≤ b.y0 ∧ b.y0 ≤ b.y1 ∧ b.y1 ≤ 1118

/-- A concrete rasteriser satisfying both the frame and ink conditions: it
writes the ink exactly on the certainly-covered pixels and leaves every
other pixel alone. -/
noncomputable def inkRasteriser : DrawOp → Raster → Raster :=
  fun op r q =>
    haveI := Classical.dec (certainlyCovers op q)
    if certainlyCovers op q then ink op else r q

/-! ## Accessors on recorded calls (for stating invariants) -/

/-- Alpha channel of a call's ink. -/
def fillAlpha (op : DrawOp) : ℕ := (ink op).2.2.2

/-- RGB part of a call's ink. -/
def inkRGB (op : DrawOp) : ℕ × ℕ × ℕ :=
  ((ink op).1, (ink op).2.1, (ink op).2.2.1)

/-- Draw position of a text call. -/
def textAnchor : DrawOp → Option (ℝ × ℝ)
  | DrawOp.text p _ _ _ => some p
  | _ => none

/-- String of a text call. -/
def textString : DrawOp → Option String
  | DrawOp.text _ s _ _ => some s
  | _ => none

/-- Font of a text call. -/
def textFont : DrawOp → Option Font
  | DrawOp.text _ _ f _ => some f
  | _ => none

/-- Centre of an ellipse call's bounding box. -/
noncomputable def ellipseCenter : DrawOp → Option (ℝ × ℝ)
  | DrawOp.ellipse b _ _ _ => some ((b.1 + b.2.2.1) / 2, (b.2.1 + b.2.2.2) / 2)
  | _ => none

/-! ## Helper lemmas -/

lemma waveXs_eq : waveXs = (List.range 196).map (fun k => 120 + 4 * k) := rfl

lemma glowRs_eq : glowRs = [8, 7, 6, 5, 4, 3, 2, 1] := by decide

lemma ringOps_eq :
    ringOps =
      [DrawOp.ellipse (132, 132, 892, 892) none (80, 140, 255, 40) 10,
       DrawOp.ellipse (182, 182, 842, 842) none (80, 140, 255, 60) 10,
       DrawOp.ellipse (232, 232, 792, 792) none (80, 140, 255, 80) 10] := by
  simp only [ringOps, ringSpecs, ringOp, size, List.map_cons, List.map_nil]
  norm_num

lemma mem_waveXs {x : ℕ} (hx : x ∈ waveXs) : 120 ≤ x := by
  rw [waveXs_eq] at hx
  obtain ⟨k, -, rfl⟩ := List.mem_map.mp hx
  omega

/-- Every sampled point has `x ≥ 120` and `y ∈ [392, 632]`. -/
lemma mem_pts_bounds {q : ℝ × ℝ} (hq : q ∈ pts) :
    120 ≤ q.1 ∧ 392 ≤ q.2 ∧ q.2 ≤ 632 := by
  obtain ⟨x, hx, rfl⟩ := List.mem_map.mp hq
  have hx120 : (120 : ℝ) ≤ (x : ℝ) := by exact_mod_cast mem_waveXs hx
  refine ⟨hx120, ?_, ?_⟩ <;>
  · simp only [wavePoint, size, amp]
    have hs1 := Real.sin_le_one
      (((x : ℝ) - 120) / ((1024 : ℝ) - 240) * 2 * Real.pi * 3)
    have hs2 := Real.neg_one_le_sin
      (((x : ℝ) - 120) / ((1024 : ℝ) - 240) * 2 * Real.pi * 3)
    push_cast
    nlinarith

lemma fontLoop_eq_find (ex : String → Bool) :
    ∀ l : List String,
      fontLoop ex l = (l.find? ex).map (fun p => Font.truetype p 180)
  | [] => rfl
  | p :: rest => by
      rw [fontLoop, List.find?]
      cases h : ex p <;> simp [h, fontLoop_eq_find ex rest]

/-! ## Claim theorems -/

/-- C1 (counterexample): for the measured box `(10, 0, 200, 100)` — left
offset 10 px — the box placed at the computed `text_pos` has horizontal
centre `522`, which is not within 1 px of `size / 2 = 512`. -/
theorem text_centering_counterexample :
    ¬ |bboxCenterX (placedBBox (text_pos ⟨10, 0, 200, 100⟩) ⟨10, 0, 200, 100⟩) -
        (size : ℝ) / 2| ≤ 1 := by
  simp only [bboxCenterX, placedBBox, text_pos, textW, textH, size]
  norm_num

/-- C1 (amended): the horizontal centre of the measured bounding box, placed
at the computed `text_pos`, deviates from `size / 2` by exactly the measured
box's left coordinate `x0`; in particular it is within ±1 px of the canvas
centre exactly when `|x0| ≤ 1` (so the computed position centres the
measured *width*, and true centring holds only for fonts whose measured box
starts within 1 px of the origin). -/
theorem text_centering_offset (b : TextBBox) :
    bboxCenterX (placedBBox (text_pos b) b) - (size : ℝ) / 2 = b.x0 ∧
    (|bboxCenterX (placedBBox (text_pos b) b) - (size : ℝ) / 2| ≤ 1 ↔
      |b.x0| ≤ 1) := by
  have h : bboxCenterX (placedBBox (text_pos b) b) - (size : ℝ) / 2 = b.x0 := by
    simp only [bboxCenterX, placedBBox, text_pos, textW, size]
    push_cast
    ring
  exact ⟨h, by rw [h]⟩

/-- C2: every sampled wave point has its y-value within
`[size/2 - amp, size/2 + amp] = [392, 632]`. -/
theorem wave_y_within_amplitude :
    ∀ q ∈ pts, 392 ≤ q.2 ∧ q.2 ≤ 632 :=
  fun _ hq => (mem_pts_bounds hq).2

/-- Witness for C2 at the first sample `x = 120`. -/
theorem wave_y_within_amplitude_witness :
    wavePoint 120 ∈ pts ∧ 392 ≤ (wavePoint 120).2 ∧ (wavePoint 120).2 ≤ 632 := by
  have hmem : wavePoint 120 ∈ pts :=
    List.mem_map_of_mem wavePoint (show (120 : ℕ) ∈ waveXs by decide)
  exact ⟨hmem, wave_y_within_amplitude _ hmem⟩

/-- C3: the wave has exactly `(1024 - 240) / 4 = 196` points, the x-coordinates
are `120, 124, …` (stride 4 from 120), and they are strictly increasing. -/
theorem wave_count_and_monotone :
    pts.length = (1024 - 240) / 4 ∧
    pts.length = 196 ∧
    pts.map Prod.fst = (List.range 196).map (fun k : ℕ => (120 : ℝ) + 4 * (k : ℝ)) ∧
    (pts.map Prod.fst).Pairwise (fun a b => a < b) := by
  have hfst : pts.map Prod.fst =
      (List.range 196).map (fun k : ℕ => (120 : ℝ) + 4 * (k : ℝ)) := by
    simp only [pts, waveXs_eq, List.map_map]
    refine List.map_congr_left ?_
    intro k _
    simp only [Function.comp, wavePoint]
    push_cast
    ring
  refine ⟨by simp [pts, waveXs_eq], by simp [pts, waveXs_eq], hfst, ?_⟩
  rw [hfst]
  refine List.Pairwise.map _ ?_ (List.pairwise_lt_range 196)
  intro a b hab
  have hab' : (a : ℝ) < b := by exact_mod_cast hab
  linarith

/-- C4: the rings are drawn outer to inner — radii `[380, 330, 280]` strictly
decreasing, alphas `[40, 60, 80]` strictly increasing — and each call is an
unfilled ellipse outline of stroke width 10, hue `(80, 140, 255)`, whose
bounding box is centred on the canvas centre `(size/2, size/2)`. -/
theorem rings_outer_to_inner :
    ringSpecs.map Prod.fst = [380, 330, 280] ∧
    ringSpecs.map Prod.snd = [40, 60, 80] ∧
    (ringSpecs.map Prod.fst).Pairwise (fun a b => b < a) ∧
    (ringSpecs.map Prod.snd).Pairwise (fun a b => a < b) ∧
    ringOps =
      [DrawOp.ellipse (132, 132, 892, 892) none (80, 140, 255, 40) 10,
       DrawOp.ellipse (182, 182, 842, 842) none (80, 140, 255, 60) 10,
       DrawOp.ellipse (232, 232, 792, 792) none (80, 140, 255, 80) 10] ∧
    ringOps.map ellipseCenter =
      List.replicate 3 (some ((size : ℝ) / 2, (size : ℝ) / 2)) := by
  refine ⟨by decide, by decide, by decide, by decide, ringOps_eq, ?_⟩
  rw [ringOps_eq]
  simp only [List.map_cons, List.map_nil, ellipseCenter, size, List.replicate]
  norm_num

/-- C5: the glow redraws the text 8 times at the same position, with the same
string, font and RGB colour `(120, 200, 255)`, with alphas
`144, 126, …, 18` strictly decreasing per iteration; afterwards the final
fully opaque text (alpha 255) is drawn at that same position. -/
theorem glow_overdraw_then_opaque (p : ℝ × ℝ) (f : Font) :
    (glowOps p f).length = 8 ∧
    (glowOps p f).map textAnchor = List.replicate 8 (some p) ∧
    (glowOps p f).map textString = List.replicate 8 (some text) ∧
    (glowOps p f).map textFont = List.replicate 8 (some f) ∧
    (glowOps p f).map inkRGB = List.replicate 8 (120, 200, 255) ∧
    (glowOps p f).map fillAlpha = [144, 126, 108, 90, 72, 54, 36, 18] ∧
    ((glowOps p f).map fillAlpha).Pairwise (fun a b => b < a) ∧
    (glowOps p f ++ [finalTextOp p f]).map fillAlpha =
      [144, 126, 108, 90, 72, 54, 36, 18, 255] ∧
    textAnchor (finalTextOp p f) = some p ∧
    ink (finalTextOp p f) = (235, 245, 255, 255) := by
  simp [glowOps, glowRs_eq, glowOp, finalTextOp, fillAlpha, inkRGB,
    textAnchor, textString, textFont, ink, List.replicate]

/-- C6: font resolution returns the truetype font, at 180 pt, of the first
candidate path the existence oracle accepts, and the built-in default font
when the oracle rejects every candidate; it is a total function (never
`None`, no failure path). -/
theorem font_resolution_first_or_default (ex : String → Bool) :
    resolvedFont ex =
      (match fontPaths.find? ex with
       | some p => Font.truetype p 180
       | none => Font.default) := by
  rw [resolvedFont, fontLoop_eq_find]
  cases h : fontPaths.find? ex <;> simp [h]

/-- C7: the render output depends on the existence oracle only through the
resolved font — two runs that resolve the same font produce identical
composited output. -/
theorem render_deterministic (m : Font → TextBBox) (ex1 ex2 : String → Bool)
    (h : resolvedFont ex1 = resolvedFont ex2) :
    render ex1 m = render ex2 m := by
  unfold render
  rw [h]

/-- Witness for C7: an oracle accepting every path and an oracle accepting
only the Helvetica path resolve the same font, hence render identically. -/
theorem render_deterministic_witness :
    resolvedFont (fun _ => true) =
      resolvedFont
        (fun s => s == "/System/Library/Fonts/Supplemental/Helvetica.ttf") ∧
    render (fun _ => true) (fun _ => ⟨0, 0, 0, 0⟩) =
      render
        (fun s => s == "/System/Library/Fonts/Supplemental/Helvetica.ttf")
        (fun _ => ⟨0, 0, 0, 0⟩) := by
  have h : resolvedFont (fun _ => true) =
      resolvedFont
        (fun s => s == "/System/Library/Fonts/Supplemental/Helvetica.ttf") := by
    decide
  exact ⟨h, render_deterministic _ _ _ h⟩

/-- C8: the output raster's dimensions are exactly 1024×1024, whatever the
existence oracle and font metrics. -/
theorem render_dims_fixed (ex : String → Bool) (m : Font → TextBBox) :
    (render ex m).dims = (1024, 1024) := rfl

/-! ## Pixel-level lemmas -/

lemma render_ops_eq (ex : String → Bool) (m : Font → TextBBox) :
    (render ex m).ops =
      ringOps ++ [waveOp] ++
        glowOps (text_pos (m (resolvedFont ex))) (resolvedFont ex) ++
        [finalTextOp (text_pos (m (resolvedFont ex))) (resolvedFont ex)] := rfl

lemma applyOps_cons (e : DrawOp → Raster → Raster) (op : DrawOp)
    (ops : List DrawOp) (r : Raster) :
    applyOps e (op :: ops) r = applyOps e ops (e op r) := rfl

lemma applyOps_untouched (m : Font → TextBBox) (e : DrawOp → Raster → Raster)
    (he : FrameRespecting m e) (q : ℝ × ℝ) :
    ∀ (ops : List DrawOp) (r : Raster),
      (∀ op ∈ ops, ¬ covers m op q) → applyOps e ops r q = r q
  | [], _, _ => rfl
  | op :: rest, r, h => by
      rw [applyOps_cons,
        applyOps_untouched m e he q rest (e op r)
          (fun o ho => h o (List.mem_cons_of_mem _ ho))]
      exact he op r q (h op (List.mem_cons_self _ _))

lemma text_op_noncover {m : Font → TextBBox} {f : Font}
    (hm : MetricsSane (m f)) (s : String) (c : Color) {q : ℝ × ℝ}
    (hq : q.2 ≤ 135) : ¬ covers m (DrawOp.text (text_pos (m f)) s f c) q := by
  intro hcov
  obtain ⟨-, -, h3, -⟩ := hcov
  obtain ⟨h0, h01, h1⟩ := hm
  simp only [text_pos, textH, size] at h3
  push_cast at h3
  nlinarith

lemma wave_noncover_x {m : Font → TextBBox} {q : ℝ × ℝ} (hq : q.1 < 90) :
    ¬ covers m waveOp q := by
  intro hcov
  obtain ⟨c, hc, h1, -⟩ := hcov
  have hx := (mem_pts_bounds hc).1
  have := abs_le.mp h1
  linarith [this.1]

lemma wave_noncover_y {m : Font → TextBBox} {q : ℝ × ℝ} (hq : q.2 < 362) :
    ¬ covers m waveOp q := by
  intro hcov
  obtain ⟨c, hc, -, h2⟩ := hcov
  have hy := (mem_pts_bounds hc).2.1
  have := abs_le.mp h2
  linarith [this.1]

lemma certainlyCovers_subset {m : Font → TextBBox} {op : DrawOp} {q : ℝ × ℝ}
    (h : certainlyCovers op q) : covers m op q := by
  cases op with
  | ellipse b fill outline w =>
      obtain ⟨rfl, h1, h2⟩ := h
      exact ⟨by simp; linarith, by simp; linarith, le_refl _, h2⟩
  | line points fill w j => exact h.elim
  | text p s f c => exact h.elim

lemma inkRasteriser_frame (m : Font → TextBBox) :
    FrameRespecting m inkRasteriser := by
  intro op r q h
  have hnc : ¬ certainlyCovers op q := fun hc => h (certainlyCovers_subset hc)
  simp only [inkRasteriser]
  exact if_neg hnc

lemma inkRasteriser_ink : InkWriting inkRasteriser := by
  intro op r q h
  simp only [inkRasteriser]
  exact if_pos h

/-- C9: under any rasteriser that respects the covering regions, the finished
raster's pixel `(0, 0)` still holds the opaque background `(15, 20, 35, 255)`
— no ring, wave or text call covers that corner — and it is not transparent. -/
theorem corner_pixel_is_background (ex : String → Bool) (m : Font → TextBBox)
    (e : DrawOp → Raster → Raster) (hf : FrameRespecting m e)
    (hm : MetricsSane (m (resolvedFont ex))) :
    applyOps e (render ex m).ops initialRaster (0, 0) = (15, 20, 35, 255) ∧
    (applyOps e (render ex m).ops initialRaster (0, 0)).2.2.2 ≠ 0 := by
  have hops : ∀ op ∈ (render ex m).ops, ¬ covers m op (0, 0) := by
    intro op hop
    rw [render_ops_eq] at hop
    simp only [List.mem_append, List.mem_singleton] at hop
    rcases hop with ((hr | rfl) | hg) | rfl
    · rw [ringOps_eq] at hr
      simp only [List.mem_cons, List.not_mem_nil, or_false] at hr
      rcases hr with rfl | rfl | rfl <;>
      · intro hcov
        obtain ⟨h1, -, -, -⟩ := hcov
        norm_num at h1
    · exact wave_noncover_x (by norm_num)
    · obtain ⟨r, -, rfl⟩ := List.mem_map.mp hg
      exact text_op_noncover hm text _ (by norm_num)
    · exact text_op_noncover hm text _ (by norm_num)
  rw [applyOps_untouched m e hf (0, 0) _ _ hops]
  exact ⟨rfl, by norm_num [initialRaster, bg]⟩

/-- Witness for C9: the identity rasteriser, the all-false existence oracle
and a sane metric function. -/
theorem corner_pixel_is_background_witness :
    FrameRespecting (fun _ => ⟨10, 30, 300, 160⟩) (fun _ r => r) ∧
    MetricsSane ((fun _ : Font => (⟨10, 30, 300, 160⟩ : TextBBox))
      (resolvedFont (fun _ => false))) ∧
    applyOps (fun _ r => r)
      (render (fun _ => false) (fun _ => ⟨10, 30, 300, 160⟩)).ops
      initialRaster (0, 0) = (15, 20, 35, 255) := by
  have hf : FrameRespecting (fun _ => ⟨10, 30, 300, 160⟩) (fun _ r => r) :=
    fun _ _ _ _ => rfl
  have hm : MetricsSane (⟨10, 30, 300, 160⟩ : TextBBox) :=
    ⟨by norm_num, by norm_num, by norm_num⟩
  exact ⟨hf, hm, (corner_pixel_is_background _ _ _ hf hm).1⟩

/-- C10: the ring inks carry alphas `40, 60, 80` and the glow inks alphas at
most `144`; under any rasteriser that copies the RGBA ink verbatim onto
certainly-covered pixels (Pillow's `ImageDraw` on an RGBA canvas overwrites
the destination alpha, it does not alpha-blend) and respects the covering
regions, the finished raster holds the non-opaque value `(80, 140, 255, 40)`
at the outer ring's top-centre pixel `(512, 132)`. -/
theorem composited_has_nonopaque_pixels (ex : String → Bool)
    (m : Font → TextBBox) (e : DrawOp → Raster → Raster)
    (hf : FrameRespecting m e) (hi : InkWriting e)
    (hm : MetricsSane (m (resolvedFont ex))) :
    ringOps.map fillAlpha = [40, 60, 80] ∧
    (glowOps (text_pos (m (resolvedFont ex))) (resolvedFont ex)).map fillAlpha =
      [144, 126, 108, 90, 72, 54, 36, 18] ∧
    applyOps e (render ex m).ops initialRaster (512, 132) = (80, 140, 255, 40) ∧
    (applyOps e (render ex m).ops initialRaster (512, 132)).2.2.2 ≠ 255 := by
  have houter : applyOps e (render ex m).ops initialRaster (512, 132) =
      (80, 140, 255, 40) := by
    have hsplit : (render ex m).ops =
        DrawOp.ellipse (132, 132, 892, 892) none (80, 140, 255, 40) 10 ::
          (DrawOp.ellipse (182, 182, 842, 842) none (80, 140, 255, 60) 10 ::
           DrawOp.ellipse (232, 232, 792, 792) none (80, 140, 255, 80) 10 ::
           waveOp ::
             (glowOps (text_pos (m (resolvedFont ex))) (resolvedFont ex) ++
              [finalTextOp (text_pos (m (resolvedFont ex)))
                (resolvedFont ex)])) := by
      rw [render_ops_eq, ringOps_eq]
      simp
    have hcc : certainlyCovers
        (DrawOp.ellipse (132, 132, 892, 892) none (80, 140, 255, 40) 10)
        (512, 132) := by
      refine ⟨?_, by norm_num, by norm_num⟩
      norm_num
    have hrest : ∀ op ∈
        (DrawOp.ellipse (182, 182, 842, 842) none (80, 140, 255, 60) 10 ::
         DrawOp.ellipse (232, 232, 792, 792) none (80, 140, 255, 80) 10 ::
         waveOp ::
           (glowOps (text_pos (m (resolvedFont ex))) (resolvedFont ex) ++
            [finalTextOp (text_pos (m (resolvedFont ex))) (resolvedFont ex)])),
        ¬ covers m op (512, 132) := by
      intro op hop
      simp only [List.mem_cons, List.mem_append, List.mem_singleton,
        List.not_mem_nil, or_false] at hop
      rcases hop with rfl | rfl | rfl | hg | rfl
      · intro hcov
        obtain ⟨-, -, h3, -⟩ := hcov
        norm_num at h3
      · intro hcov
        obtain ⟨-, -, h3, -⟩ := hcov
        norm_num at h3
      · exact wave_noncover_y (by norm_num)
      · obtain ⟨r, -, rfl⟩ := List.mem_map.mp hg
        exact text_op_noncover hm text _ (by norm_num)
      · exact text_op_noncover hm text _ (by norm_num)
    rw [hsplit, applyOps_cons, applyOps_untouched m e hf (512, 132) _ _ hrest,
      hi _ initialRaster (512, 132) hcc]
    rfl
  refine ⟨?_, ?_, houter, ?_⟩
  · rw [ringOps_eq]
    simp [fillAlpha, ink]
  · simp [glowOps, glowRs_eq, glowOp, fillAlpha, ink]
  · rw [houter]
    norm_num

/-- Witness for C10: the ink-writing rasteriser `inkRasteriser`, the
all-false existence oracle and a sane metric function. -/
theorem composited_has_nonopaque_pixels_witness :
    FrameRespecting (fun _ => ⟨10, 30, 300, 160⟩) inkRasteriser ∧
    InkWriting inkRasteriser ∧
    MetricsSane ((fun _ : Font => (⟨10, 30, 300, 160⟩ : TextBBox))
      (resolvedFont (fun _ => false))) ∧
    applyOps inkRasteriser
      (render (fun _ => false) (fun _ => ⟨10, 30, 300, 160⟩)).ops
      initialRaster (512, 132) = (80, 140, 255, 40) := by
  have hm : MetricsSane (⟨10, 30, 300, 160⟩ : TextBBox) :=
    ⟨by norm_num, by norm_num, by norm_num⟩
  exact ⟨inkRasteriser_frame _, inkRasteriser_ink, hm,
    (composited_has_nonopaque_pixels _ _ _ (inkRasteriser_frame _)
      inkRasteriser_ink hm).2.2.1⟩

end MakeIcon
